import Mathlib

/-!
Verification development for the self-update client in `utils/updater.py`
(repository `132nd-etcher/utils`).

The Python module builds on the `semver` library (`semver.parse`,
`semver.parse_version_info`, `semver.compare`).  We embed:

* the semantic-version grammar enforced claimed by `semver.parse` (anchored regex:
  `MAJOR.MINOR.PATCH[-PRERELEASE][+BUILD]`, numeric components canonical,
  prerelease identifiers alphanumeric-with-hyphen or canonical numerals),
* `semver.compare` (major/minor/patch numerically, then prerelease
  precedence via `_nat_cmp`: dot-split identifiers, numeric identifiers
  compared numerically and below alphanumeric ones, alphanumeric ones
  compared lexicographically by code point, with a final tie-break on the
  raw prerelease string lengths; build metadata never participates),
* class `Version` (`__init__`/`_parse`/`__gt__`/`__lt__`/`__eq__` and the
  branch-extraction regex `.*\.(?P<branch>.*)\..*?`),
* class `AvailableReleases` (`filter_by_channel`, `filter_by_branch`,
  `get_latest_release`),
* class `Updater` (`_build_candidates_list`, `_process_candidates`,
  `_download_latest_release`, `_install_update`, and the per-cycle stage
  sequencing of `_version_check_follow_up`).

Strings are modelled through their character lists; Python dictionaries
(which iterate in insertion order with unique keys) are modelled as
insertion-ordered association lists.
-/

/-! ### Character classes of the semver grammar -/

/-- ASCII decimal digit, `[0-9]` in the semver regex. -/
def isDigitChar (c : Char) : Bool := 48 ≤ c.toNat && c.toNat ≤ 57

/-- `[0-9A-Za-z-]`, the character class of prerelease/build identifiers. -/
def isIdentChar (c : Char) : Bool :=
  isDigitChar c || (65 ≤ c.toNat && c.toNat ≤ 90) || (97 ≤ c.toNat && c.toNat ≤ 122) || c = '-'

/-- Numeric value of a digit character. -/
def digitVal (c : Char) : Nat := c.toNat - 48

/-- Accumulator loop of `decVal`. -/
def decValGo (a : Nat) : List Char → Nat
  | [] => a
  | c :: cs => decValGo (a * 10 + digitVal c) cs

/-- Value of a decimal digit string (left fold, like Python `int`). -/
def decVal (cs : List Char) : Nat := decValGo 0 cs

/-- `0|[1-9][0-9]*`: canonical decimal numeral (no leading zero except `0`). -/
def canonNumeric : List Char → Bool
  | [] => false
  | c :: cs => (c :: cs).all isDigitChar && (decide (c ≠ '0') || decide (cs = []))

/-- A valid semver prerelease identifier: either a canonical numeral
(`0|[1-9][0-9]*`) or `[0-9]*[A-Za-z-][0-9A-Za-z-]*` (ident characters with
at least one non-digit). -/
def validPreIdent (cs : List Char) : Bool :=
  canonNumeric cs || (decide (cs ≠ []) && cs.all isIdentChar && !cs.all isDigitChar)

/-- A valid semver build identifier: `[0-9A-Za-z-]+`. -/
def validBuildIdent (cs : List Char) : Bool :=
  decide (cs ≠ []) && cs.all isIdentChar

/-! ### Splitting helpers (Python `str.split('.')` and regex decomposition) -/

/-- Python `s.split('.')`: split at every dot, keeping empty pieces.
Never returns the empty list. -/
def splitOnDot : List Char → List (List Char)
  | [] => [[]]
  | c :: cs =>
    if c = '.' then [] :: splitOnDot cs
    else
      match splitOnDot cs with
      | [] => [[c]]
      | p :: ps => (c :: p) :: ps

/-- Inverse of `splitOnDot`: re-join pieces with dots. -/
def joinDots : List (List Char) → List Char
  | [] => []
  | [p] => p
  | p :: q :: rest => p ++ '.' :: joinDots (q :: rest)

/-- Length of the joined string `joinDots ps`. -/
def joinLen : List (List Char) → Nat
  | [] => 0
  | [p] => p.length
  | p :: q :: rest => p.length + 1 + joinLen (q :: rest)

/-- Split at the first occurrence of `sep` (used for the unique positions the
`+` and `-` separators can occupy in a semver string: neither character may
occur in the version core, and `+` may not occur in the prerelease, so the
anchored regex necessarily cuts at the first occurrence). -/
def splitAtFirst (sep : Char) : List Char → List Char × Option (List Char)
  | [] => ([], none)
  | c :: cs =>
    if c = sep then ([], some cs)
    else
      let r := splitAtFirst sep cs
      (c :: r.1, r.2)

/-! ### The semver parser (`semver.parse` / `_REGEX`) -/

/-- Parsed semantic version, as `semver.parse_version_info` exposes it:
numeric core plus the raw prerelease and build segments. -/
structure SemVerInfo where
  major : Nat
  minor : Nat
  patch : Nat
  prerelease : Option (List Char)
  build : Option (List Char)

deriving DecidableEq

/-- Validity of an optional prerelease segment: absent, or a dot-list of
valid semver prerelease identifiers. -/
def WfPre : Option (List Char) → Bool
  | none => true
  | some p => (splitOnDot p).all validPreIdent

/-- Validity of an optional build segment: absent, or a dot-list of valid
semver build identifiers. -/
def WfBuild : Option (List Char) → Bool
  | none => true
  | some b => (splitOnDot b).all validBuildIdent

/-- `semver.parse` on a character list: `none` models the `ValueError`
raised on strings rejected by the anchored semver regex. -/
def parseSemverL (cs : List Char) : Option SemVerInfo :=
  match splitOnDot (splitAtFirst '-' (splitAtFirst '+' cs).1).1 with
  | [ma, mi, pa] =>
    if canonNumeric ma && canonNumeric mi && canonNumeric pa
        && WfPre (splitAtFirst '-' (splitAtFirst '+' cs).1).2
        && WfBuild (splitAtFirst '+' cs).2 then
      some ⟨decVal ma, decVal mi, decVal pa,
        (splitAtFirst '-' (splitAtFirst '+' cs).1).2, (splitAtFirst '+' cs).2⟩
    else none
  | _ => none

/-- `semver.parse` on a string. -/
def parseSemver (s : String) : Option SemVerInfo := parseSemverL s.data

/-! ### `semver.compare` -/

/-- Python `cmp` on integers. -/
def cmpNat (a b : Nat) : Ordering :=
  if a < b then .lt else if b < a then .gt else .eq

/-- A prerelease identifier after `_nat_cmp`'s `convert`: an `int` when the
identifier is all digits, otherwise the string itself. -/
inductive PreId where
  | num (n : Nat)
  | alnum (s : List Char)

deriving DecidableEq

/-- `_nat_cmp.convert`: `int(text)` when `text` matches `^[0-9]+$`. -/
def convertPart (cs : List Char) : PreId :=
  if decide (cs ≠ []) && cs.all isDigitChar then .num (decVal cs) else .alnum cs

/-- Python `cmp` on strings: lexicographic by code point. -/
def cmpChars : List Char → List Char → Ordering
  | [], [] => .eq
  | [], _ :: _ => .lt
  | _ :: _, [] => .gt
  | a :: as, b :: bs =>
    if a.toNat < b.toNat then .lt
    else if b.toNat < a.toNat then .gt
    else cmpChars as bs

/-- `_nat_cmp.cmp_prerelease_tag`: ints numerically, int below string,
strings lexicographically. -/
def cmpTag : PreId → PreId → Ordering
  | .num a, .num b => cmpNat a b
  | .num _, .alnum _ => .lt
  | .alnum _, .num _ => .gt
  | .alnum a, .alnum b => cmpChars a b

/-- The `zip` loop of `_nat_cmp`: first non-`eq` tag comparison over the
common prefix of the two identifier lists. -/
def lexZip : List PreId → List PreId → Ordering
  | [], _ => .eq
  | _ :: _, [] => .eq
  | a :: as, b :: bs =>
    match cmpTag a b with
    | .eq => lexZip as bs
    | o => o

/-- `_nat_cmp(a, b)`: dot-split both strings, convert the pieces, compare the
zipped prefix, and fall back to comparing the raw string lengths. -/
def natCmpRaw (a b : List Char) : Ordering :=
  match lexZip ((splitOnDot a).map convertPart) ((splitOnDot b).map convertPart) with
  | .eq => cmpNat a.length b.length
  | o => o

/-- Python falsiness of an optional prerelease segment (`None` or `''`). -/
def preFalsy (rc : Option (List Char)) : Bool := rc.getD [] = []

/-- The prerelease step of `_compare_by_keys`: `_nat_cmp` on the segments,
with a missing prerelease forced above a present one when they are not
`_nat_cmp`-equal. -/
def cmpPre (rc1 rc2 : Option (List Char)) : Ordering :=
  let r := natCmpRaw (rc1.getD []) (rc2.getD [])
  if r = .eq then .eq
  else if preFalsy rc1 then .gt
  else if preFalsy rc2 then .lt
  else r

/-- `semver._compare_by_keys`: major, minor, patch numerically, then the
prerelease rule.  Build metadata is ignored. -/
def cmpInfo (a b : SemVerInfo) : Ordering :=
  match cmpNat a.major b.major with
  | .eq =>
    match cmpNat a.minor b.minor with
    | .eq =>
      match cmpNat a.patch b.patch with
      | .eq => cmpPre a.prerelease b.prerelease
      | o => o
    | o => o
  | o => o

/-! ### Class `Version` -/

/-- The five release channels assigned by `Version._parse` (the Python code
uses the string constants `'stable'`, `'alpha'`, `'beta'`, `'dev'`, `'rc'`;
these are the only values `channel` can take, enforced by `_parse` and the
`Updater.channel` setter). -/
inductive Channel where
  | alpha
  | beta
  | dev
  | rc
  | stable

deriving DecidableEq

/-- `channel_weights` (identical in `AvailableReleases`, `Updater2` and
`Updater`): alpha 0, beta 1, dev 2, rc 3, stable 4. -/
def Channel.weight : Channel → Nat
  | .alpha => 0
  | .beta => 1
  | .dev => 2
  | .rc => 3
  | .stable => 4

/-- The ways `Version(version_str)` can raise.

* `invalidVersionFormat`: `semver.parse` rejects the string and `__init__`
  re-raises `ValueError(version_str)` — the spec's `InvalidVersionFormat`.
* `unknownPrereleasePrefix`: `_parse` reaches its `else` branch and raises
  `ValueError(info.prerelease)` — the spec's `UnknownPrereleasePrefix`.
* `branchMatchFailure`: `re_branch.match(info.prerelease)` returns `None`
  and `.group('branch')` raises `AttributeError`. -/
inductive VersionError where
  | invalidVersionFormat (s : String)
  | unknownPrereleasePrefix (p : List Char)
  | branchMatchFailure

deriving DecidableEq

/-- The capture of `re_branch = re.compile(r'.*\.(?P<branch>.*)\..*?')`
applied via `re.match` to the prerelease segment.

With Python's leftmost-greedy backtracking the leading `.*` matches the
longest prefix that still leaves a `\.` for itself and a later `\.` for the
group, i.e. it stops at the second-to-last dot; the greedy group then
extends to the last dot and the lazy `.*?` matches nothing.  Hence the
capture is the piece strictly between the last two dots — the second-to-last
element of the dot-split — and the match fails altogether when the string
contains fewer than two dots. -/
def reBranch (pre : List Char) : Option (List Char) :=
  match (splitOnDot pre).reverse with
  | _ :: b :: _ :: _ => some b
  | _ => none

/-- The immutable value object built by `Version.__init__`/`_parse`:
the raw string, its parse (re-derived on every comparison, but
deterministic, so stored once here), the channel and the optional branch. -/
structure Version where
  versionStr : String
  info : SemVerInfo
  channel : Channel
  branch : Option (List Char)

deriving DecidableEq

/-- `Version(version_str)`: `semver.parse` validation, then `_parse`'s
channel classification on the prerelease segment (`startswith` tests in
source order: `'alpha.'`, `'beta.'`, `'dev'`, `'rc'`, else raise). -/
def Version.make (s : String) : Except VersionError Version :=
  match parseSemverL s.data with
  | none => .error (.invalidVersionFormat s)
  | some info =>
    match info.prerelease with
    | none => .ok ⟨s, info, .stable, none⟩
    | some p =>
      if List.isPrefixOf "alpha.".data p then
        match reBranch p with
        | some b => .ok ⟨s, info, .alpha, some b⟩
        | none => .error .branchMatchFailure
      else if List.isPrefixOf "beta.".data p then
        match reBranch p with
        | some b => .ok ⟨s, info, .beta, some b⟩
        | none => .error .branchMatchFailure
      else if List.isPrefixOf "dev".data p then .ok ⟨s, info, .dev, none⟩
      else if List.isPrefixOf "rc".data p then .ok ⟨s, info, .rc, none⟩
      else .error (.unknownPrereleasePrefix p)

/-- `Version.__gt__`/`__lt__`/`__eq__` all delegate to
`semver.compare(self.version_str, other.version_str)`; re-parsing the stored
string reproduces `info`, so the comparison acts on the stored parses. -/
def vcmp (a b : Version) : Ordering := cmpInfo a.info b.info

/-- Well-formedness of a parse result: the prerelease segment, when present,
is a dot-list of valid identifiers.  `parseSemverL` guarantees this. -/
def wfInfo (i : SemVerInfo) : Bool := WfPre i.prerelease

/-- Well-formedness of a `Version`: its parse is well-formed. -/
def wfV (v : Version) : Bool := wfInfo v.info

deriving instance DecidableEq for Except

/-! ### Class `AvailableReleases` (the release catalog) -/

/-- A named downloadable file attached to a release. -/
structure Asset where
  name : String
  url : String

deriving DecidableEq

/-- Class `GithubRelease`: a raw release plus its parsed `Version`. -/
structure GithubRelease where
  version : Version
  assets : List Asset

deriving DecidableEq

/-- `AvailableReleases` is a `UserDict` keyed by version string; Python
dicts preserve insertion order with unique keys, so we model the catalog as
an insertion-ordered association list.  `AvailableReleases.add` keys every
entry by `release.version.version_str`, which is the catalog invariant the
spec states. -/
def Catalog : Type := List (String × GithubRelease)

/-- Result of the catalog filters: `filter_by_channel` returns the literal
`False` when the source catalog is empty, otherwise a new catalog. -/
inductive FilterResult where
  | noRelease
  | ok (c : List (String × GithubRelease))

deriving DecidableEq

/-- Entries carried by a filter result (`False` carries none). -/
def FilterResult.entries : FilterResult → List (String × GithubRelease)
  | .noRelease => []
  | .ok c => c

/-- `AvailableReleases.filter_by_channel`: `False` on an empty catalog, else
keep the entries whose channel weight is at least the requested channel's
weight.  (The code recomputes `Version(version_str)` from each key and takes
its channel; by the catalog invariant the key parses to the entry's own
`release.version`, used here directly.) -/
def filterByChannel (cat : List (String × GithubRelease)) (channel : Channel) :
    FilterResult :=
  if cat.isEmpty then .noRelease
  else .ok (cat.filter fun e => decide (channel.weight ≤ e.2.version.channel.weight))

/-- The branch test of `filter_by_branch`'s loop:
`if release.branch and not branch == release.branch: continue`.
An entry with a truthy (non-empty) branch survives only when the caller's
branch equals it; entries without a branch always survive. -/
def keepByBranch (caller relBranch : Option (List Char)) : Bool :=
  match relBranch with
  | none => true
  | some b => if b.isEmpty then true else decide (caller = some b)

/-- `AvailableReleases.filter_by_branch(channel, branch)`: filter by channel
first; propagate a falsy result (the `False` of an empty source, or an empty
channel-filtered catalog) unchanged; otherwise keep the entries passing the
branch test.  A `Version` argument is first replaced by its `.branch`, so the
caller's branch is modelled as `Option (List Char)`. -/
def filterByBranch (cat : List (String × GithubRelease)) (channel : Channel)
    (branch : Option (List Char)) : FilterResult :=
  match filterByChannel cat channel with
  | .noRelease => .noRelease
  | .ok c =>
    if c.isEmpty then .ok c
    else .ok (c.filter fun e => keepByBranch branch e.2.version.branch)

/-- The `Version('0.0.0')` sentinel that seeds `get_latest_release`. -/
def sentinel000 : Version := ⟨"0.0.0", ⟨0, 0, 0, none, none⟩, .stable, none⟩

/-- `AvailableReleases.get_latest_release`: `None` on an empty catalog;
otherwise fold the values, keeping the strictly greatest version, starting
from the `Version('0.0.0')` sentinel, and finally index the backing dict
with the winner's version string — `.error k` models the `KeyError(k)` this
lookup raises when no entry's version ever exceeded `0.0.0`. -/
def getLatestRelease (cat : List (String × GithubRelease)) :
    Except String (Option GithubRelease) :=
  if cat.isEmpty then .ok none
  else
    let latest := cat.foldl
      (fun latest e => if vcmp e.2.version latest = .gt then e.2.version else latest)
      sentinel000
    match cat.find? (fun e => e.1 = latest.versionStr) with
    | some e => .ok (some e.2)
    | none => .error latest.versionStr

/-! ### Class `Updater` -/

/-- The mutable fields of an `Updater` instance that the pipeline stages
read and write, together with its constructor configuration.  The optional
`pre_update_func` hook is modelled by the value it would return
(`none` = no hook registered); `cancel_update_func` by whether it is
registered (stages report how many times they would call it). -/
structure UpdaterState where
  current : Version
  channel : Channel
  available : List (String × GithubRelease)
  candidates : List (String × GithubRelease)
  latestRemote : Option Version
  latestCandidate : Option GithubRelease
  updateReadyToInstall : Bool
  autoUpdate : Bool
  assetFilename : String
  preUpdate : Option Bool
  hasCancelHook : Bool

deriving DecidableEq

/-- `1` if a cancel hook is registered (one `self._cancel_update_func()`
call), else `0`. -/
def cancelTick (s : UpdaterState) : Nat := if s.hasCancelHook then 1 else 0

/-- The `latest_remote` update step of `_build_candidates_list`:
`if self.latest_remote is None or self.latest_remote < version:
 self.latest_remote = version`. -/
def lrUpdate (lr : Option Version) (v : Version) : Option Version :=
  match lr with
  | none => some v
  | some m => if vcmp m v = .lt then some v else some m

/-- The per-entry loop of `_build_candidates_list`, iterating the
`_available` dict in insertion order.  Each entry re-parses its key
(`Version(version)`); by the catalog invariant this is the entry's own
parsed version.  Channel-incompatible and branch-incompatible entries are
skipped; surviving entries update `latest_remote`, and those strictly
greater than `current` are appended to the `_candidates` dict (keyed by
`version.version_str`). -/
def buildLoop (cur : Version) (minW : Nat) :
    List (String × GithubRelease) → Option Version → List (String × GithubRelease) →
      Option Version × List (String × GithubRelease)
  | [], lr, cands => (lr, cands)
  | e :: rest, lr, cands =>
    let v := e.2.version
    if v.channel.weight < minW then buildLoop cur minW rest lr cands
    else if cur.branch.isSome && !(decide (cur.branch = v.branch)) then
      buildLoop cur minW rest lr cands
    else
      let lr := lrUpdate lr v
      if vcmp v cur = .gt then
        buildLoop cur minW rest lr (cands ++ [(v.versionStr, e.2)])
      else buildLoop cur minW rest lr cands

/-- `Updater._build_candidates_list`: reset `_candidates`, run the loop over
`_available`, and return `True` iff `_candidates` ended up non-empty.
`latest_remote` is *not* reset before the loop. -/
def buildCandidatesList (s : UpdaterState) : UpdaterState × Bool :=
  let r := buildLoop s.current s.channel.weight s.available s.latestRemote []
  ({ s with latestRemote := r.1, candidates := r.2 }, !r.2.isEmpty)

/-- The selection loop of `_process_candidates`: for each candidate (in dict
iteration order) whose version strictly exceeds `self._current` — note:
compared against `_current`, not against the running `latest` — overwrite
`latest` and `self.latest_candidate`. -/
def pcLoop (cur : Version) :
    List (String × GithubRelease) → Version × Option GithubRelease →
      Version × Option GithubRelease
  | [], acc => acc
  | e :: rest, acc =>
    let v := e.2.version
    if vcmp v cur = .gt then pcLoop cur rest (v, some e.2)
    else pcLoop cur rest acc

/-- `Updater._process_candidates`: with no candidates, call the cancel hook
and return `False`; with candidates, run the (optional) pre-update hook and
on rejection call the cancel hook and return `False`; otherwise run the
selection loop and return whether the final `latest` differs from
`current`.  Result: (new state, return value, cancel-hook calls). -/
def processCandidates (s : UpdaterState) : UpdaterState × Bool × Nat :=
  match s.candidates with
  | [] => (s, false, cancelTick s)
  | _ :: _ =>
    match s.preUpdate with
    | some false => (s, false, cancelTick s)
    | _ =>
      let r := pcLoop s.current s.candidates (s.current, s.latestCandidate)
      ({ s with latestCandidate := r.2 }, decide (vcmp r.1 s.current ≠ .eq), 0)

/-- Observable effects of one download stage run: the resulting state, the
number of cancel-hook invocations, of `Progress.start` calls, and of
`Downloader(...).download()` attempts. -/
structure StageOut where
  state : UpdaterState
  cancels : Nat
  progressStarts : Nat
  downloads : Nat

deriving DecidableEq

/-- The asset loop of `_download_latest_release`: every asset whose name
matches `_asset_filename` case-insensitively starts the progress bar and a
download (`dlOk url` is the downloader's outcome for that URL); success sets
the ready flag, failure calls the cancel hook.  There is no `break`, so
every matching asset is processed. -/
def dlLoop (dlOk : String → Bool) (filename : String) :
    List Asset → StageOut → StageOut
  | [], out => out
  | a :: rest, out =>
    if a.name.toLower = filename.toLower then
      let out := { out with
        progressStarts := out.progressStarts + 1, downloads := out.downloads + 1 }
      let out :=
        if dlOk a.url then
          { out with state := { out.state with updateReadyToInstall := true } }
        else { out with cancels := out.cancels + cancelTick out.state }
      dlLoop dlOk filename rest out
    else dlLoop dlOk filename rest out

/-- `Updater._download_latest_release`: with `auto_update` unset, return
immediately; otherwise clear the ready flag, and either run the asset loop
on the latest candidate or — with no candidate selected — call the cancel
hook.  (The preceding `get_asset_download_url` call only logs.) -/
def downloadStage (dlOk : String → Bool) (s : UpdaterState) : StageOut :=
  if s.autoUpdate then
    match s.latestCandidate with
    | none => ⟨{ s with updateReadyToInstall := false }, cancelTick s, 0, 0⟩
    | some rel =>
      dlLoop dlOk s.assetFilename rel.assets
        ⟨{ s with updateReadyToInstall := false }, 0, 0, 0⟩
  else ⟨s, 0, 0, 0⟩

/-- Outcome of `_install_update`: either the handoff to the swap-and-restart
script (which never returns: `nice_exit(0)`), or a cancel-hook call. -/
structure InstallOut where
  handoff : Bool
  cancels : Nat

deriving DecidableEq

/-- `Updater._install_update`: hand off iff the ready flag is set, else call
the cancel hook. -/
def installStage (s : UpdaterState) : InstallOut :=
  if s.updateReadyToInstall then ⟨true, 0⟩ else ⟨false, cancelTick s⟩

/-- Aggregate observables of one update cycle. -/
structure CycleOut where
  vcFound : Bool
  finalState : UpdaterState
  handoff : Bool
  cancels : Nat
  progressStarts : Nat
  downloads : Nat

deriving DecidableEq

/-- One update cycle as `version_check`/`_version_check_follow_up` sequence
it: `_version_check` (the catalog is already fetched into `available`; the
network fetch itself never calls the cancel hook) ends in
`_build_candidates_list`; only when it reports a new version does the
follow-up queue `_process_candidates`, `_download_latest_release` and
`_install_update`, which then all run in FIFO order regardless of each
other's return values. -/
def runCycle (dlOk : String → Bool) (s : UpdaterState) : CycleOut :=
  let r := buildCandidatesList s
  if r.2 then
    let p := processCandidates r.1
    let d := downloadStage dlOk p.1
    let i := installStage d.state
    ⟨true, d.state, i.handoff, p.2.2 + d.cancels + i.cancels, d.progressStarts, d.downloads⟩
  else ⟨false, r.1, false, 0, 0, 0⟩

/-! ### Concrete versions, releases and states used in the theorems below -/

/-- `Version("0.0.1")`. -/
def v001 : Version := ⟨"0.0.1", ⟨0, 0, 1, none, none⟩, .stable, none⟩

/-- `Version("0.0.2")`. -/
def v002 : Version := ⟨"0.0.2", ⟨0, 0, 2, none, none⟩, .stable, none⟩

/-- `Version("0.0.3")`. -/
def v003 : Version := ⟨"0.0.3", ⟨0, 0, 3, none, none⟩, .stable, none⟩

/-- `Version("0.5.0")`. -/
def v050 : Version := ⟨"0.5.0", ⟨0, 5, 0, none, none⟩, .stable, none⟩

/-- `Version("1.0.0")`. -/
def v100 : Version := ⟨"1.0.0", ⟨1, 0, 0, none, none⟩, .stable, none⟩

/-- `Version("2.0.0")`. -/
def v200 : Version := ⟨"2.0.0", ⟨2, 0, 0, none, none⟩, .stable, none⟩

/-- `Version("0.0.2-dev.1")`. -/
def v002dev1 : Version := ⟨"0.0.2-dev.1", ⟨0, 0, 2, some "dev.1".data, none⟩, .dev, none⟩

/-- `Version("0.0.2-rc.1")`. -/
def v002rc1 : Version := ⟨"0.0.2-rc.1", ⟨0, 0, 2, some "rc.1".data, none⟩, .rc, none⟩

/-- `Version("0.0.2-alpha.branch1.2")`. -/
def v002a1 : Version :=
  ⟨"0.0.2-alpha.branch1.2", ⟨0, 0, 2, some "alpha.branch1.2".data, none⟩, .alpha,
    some "branch1".data⟩

/-- `Version("0.0.2-alpha.branch2.1")`. -/
def v002a2 : Version :=
  ⟨"0.0.2-alpha.branch2.1", ⟨0, 0, 2, some "alpha.branch2.1".data, none⟩, .alpha,
    some "branch2".data⟩

/-- `Version("0.0.0-alpha.tst.1")`. -/
def v000a : Version :=
  ⟨"0.0.0-alpha.tst.1", ⟨0, 0, 0, some "alpha.tst.1".data, none⟩, .alpha, some "tst".data⟩

/-- A release with no assets for a given version. -/
def bareRel (v : Version) : GithubRelease := ⟨v, []⟩

/-- A fresh `Updater` state as `__init__` leaves it: empty caches, ready
flag cleared. -/
def initState (cur : Version) (ch : Channel) (auto : Bool) (pre : Option Bool)
    (cancel : Bool) (avail : List (String × GithubRelease)) : UpdaterState :=
  { current := cur, channel := ch, available := avail, candidates := []
    latestRemote := none, latestCandidate := none, updateReadyToInstall := false
    autoUpdate := auto, assetFilename := "example.zip", preUpdate := pre
    hasCancelHook := cancel }

/-! ### Characterization of `_build_candidates_list` -/

/-- Channel-and-branch compatibility: the entry survives the two `continue`
tests of `_build_candidates_list`'s loop. -/
def isCompat (cur : Version) (minW : Nat) (e : String × GithubRelease) : Bool :=
  decide (minW ≤ e.2.version.channel.weight) &&
    (decide (cur.branch = none) || decide (cur.branch = e.2.version.branch))

/-- Candidate test: compatible and strictly newer than `current`. -/
def isCandidate (cur : Version) (minW : Nat) (e : String × GithubRelease) : Bool :=
  isCompat cur minW e && decide (vcmp e.2.version cur = Ordering.gt)

/-- Running maximum of the versions of a list of entries, starting from an
optional seed, using the update rule of `_build_candidates_list`. -/
def maxFoldLR (init : Option Version) (l : List (String × GithubRelease)) :
    Option Version :=
  l.foldl (fun a e => lrUpdate a e.2.version) init

/-- The state of claim C3's counterexample: the four-token prerelease
`alpha.b.c.d`. -/
def vC3 : Version :=
  ⟨"0.0.1-alpha.b.c.d", ⟨0, 0, 1, some "alpha.b.c.d".data, none⟩, .alpha, some "c".data⟩

/-! ### Claim C5 — `latest_remote` persists across version checks -/

/-- The state of claim C5's counterexample: a second version-check cycle,
`latest_remote` still holding `2.0.0` from an earlier check, while the
current catalog only offers `1.0.0`. -/
def stC5 : UpdaterState :=
  { initState v050 .stable false none false [("1.0.0", bareRel v100)] with
      latestRemote := some v200 }

/-- A fresh first-cycle state for the C5 witness: `latest_remote = None`. -/
def stC5w : UpdaterState :=
  initState v001 .stable false none false [("0.0.2", bareRel v002)]

/-! ### Claim C1 — `_process_candidates` does not select the maximum -/

/-- The state of claim C1's failing input: candidates `0.0.3` then `0.0.2`
in dict iteration order, current version `0.0.1`, no pre-update hook. -/
def stC1 : UpdaterState :=
  { initState v001 .stable false none false [] with
      candidates := [("0.0.3", bareRel v003), ("0.0.2", bareRel v002)] }

/-! ### Claims C2 and C10 — cancel-hook counting and the no-auto-update frame -/

/-- A download environment in which every download succeeds. -/
def dlOkAll : String → Bool := fun _ => true

/-- The state of claim C2's counterexample: one upgrade candidate
available, auto-update on, a rejecting pre-update hook, a cancel hook
registered. -/
def stC2 : UpdaterState :=
  initState v001 .stable true (some false) true [("0.0.2", bareRel v002)]

/-- The state of claim C10's witness: auto-update off (the default), one
upgrade candidate available. -/
def stC10 : UpdaterState :=
  initState v001 .stable false none true [("0.0.2", bareRel v002)]

/-- The catalog of claim C9's witness: one alpha release carrying branch
`branch1` and one stable release; the caller supplies no branch. -/
def catC9 : List (String × GithubRelease) :=
  [("0.0.2-alpha.branch1.2", bareRel v002a1), ("0.0.2", bareRel v002)]

/-! ### Claim C8 — ordering laws of `semver.compare`

The comparison chain is analysed bottom-up: integer comparison (`cmpNat`),
code-point string comparison (`cmpChars`), identifier tags (`cmpTag`), the
zip loop with its raw-length tie-break (`natCmpRaw`), and the prerelease
wrapper (`cmpPre`).  On strings accepted by the semver grammar the zip loop
plus length tie-break coincides with the full lexicographic comparison
`listCmp` of converted identifier lists, which is a genuine linear order;
the pathological behaviour of the length tie-break only arises on
non-canonical identifiers the grammar rejects. -/

/-- Full lexicographic comparison of converted identifier lists: tag-wise,
with the shorter list below on exhaustion. -/
def listCmp : List PreId → List PreId → Ordering
  | [], [] => .eq
  | [], _ :: _ => .lt
  | _ :: _, [] => .gt
  | a :: as, b :: bs =>
    match cmpTag a b with
    | .eq => listCmp as bs
    | o => o

/-- `Version("0.0.0+1")`. -/
def v000build1 : Version := ⟨"0.0.0+1", ⟨0, 0, 0, none, some "1".data⟩, .stable, none⟩

/-- `Version("0.0.0+999")`. -/
def v000build999 : Version :=
  ⟨"0.0.0+999", ⟨0, 0, 0, none, some "999".data⟩, .stable, none⟩

/-! Sanity checks against the repository's own test vectors. -/

example : parseSemver "0.0" = none := by decide

example : parseSemver "0.0.0.0" = none := by decide

example : parseSemver "0+0.0" = none := by decide

example : (parseSemver "0.0.1-alpha+test.15").isSome = true := by decide

example : (parseSemver "1.2.3-alpha.test.15+42").isSome = true := by decide

example : parseSemver "01.2.3" = none := by decide

example : parseSemver "1.2.3-alpha.01" = none := by decide

example :
    cmpInfo ⟨0, 0, 0, some "alpha.test.15".data, none⟩
      ⟨0, 0, 0, some "beta.test.15".data, none⟩ = .lt := by decide

example :
    cmpInfo ⟨0, 0, 0, some "dev.13".data, none⟩ ⟨0, 0, 0, none, none⟩ = .lt := by decide

example :
    cmpInfo ⟨0, 0, 1, some "alpha.test.15".data, none⟩
      ⟨0, 0, 1, some "alpha.test.16".data, none⟩ = .lt := by decide

example :
    cmpInfo ⟨0, 0, 1, none, some "15-some-text".data⟩ ⟨0, 0, 1, none, none⟩ = .eq := by
  decide

/-! `Version` sanity checks against the repository's test vectors. -/

example :
    Version.make "0.0.0-alpha.test.15" =
      .ok ⟨"0.0.0-alpha.test.15", ⟨0, 0, 0, some "alpha.test.15".data, none⟩, .alpha,
        some "test".data⟩ := by decide

example :
    Version.make "0.0.0-rc.15" =
      .ok ⟨"0.0.0-rc.15", ⟨0, 0, 0, some "rc.15".data, none⟩, .rc, none⟩ := by decide

example :
    Version.make "0.0.0-dev.13" =
      .ok ⟨"0.0.0-dev.13", ⟨0, 0, 0, some "dev.13".data, none⟩, .dev, none⟩ := by decide

example :
    Version.make "0.0.0+1" =
      .ok ⟨"0.0.0+1", ⟨0, 0, 0, none, some "1".data⟩, .stable, none⟩ := by decide

example : Version.make "0.0" = .error (.invalidVersionFormat "0.0") := by decide

example : Version.make "0.0.0" = .ok sentinel000 := by decide

example : Version.make "0.0.1" = .ok v001 := by decide

example : Version.make "0.0.2" = .ok v002 := by decide

example : Version.make "0.0.3" = .ok v003 := by decide

example : Version.make "0.0.2-dev.1" = .ok v002dev1 := by decide

example : Version.make "0.0.2-rc.1" = .ok v002rc1 := by decide

example : Version.make "0.0.2-alpha.branch1.2" = .ok v002a1 := by decide

example : Version.make "0.0.2-alpha.branch2.1" = .ok v002a2 := by decide

/-! Sanity checks replicating rows of the repository's
`test_updater.get_latest_remote` and `dummy_branches` tables. -/

example :
    (buildCandidatesList
      (initState v002 .rc false none false
        [("0.0.2-dev.1", bareRel v002dev1), ("0.0.2-rc.1", bareRel v002rc1)])).1.latestRemote
      = some v002rc1 := by decide

example :
    (buildCandidatesList
      (initState v002 .rc false none false
        [("0.0.2-dev.1", bareRel v002dev1), ("0.0.2-rc.1", bareRel v002rc1)])).2 = false := by
  decide

example :
    (buildCandidatesList
      (initState v002a2 .alpha false none false
        [("0.0.2-alpha.branch1.2", bareRel v002a1)])).2 = false := by decide

example :
    (buildCandidatesList
      (initState v001 .stable false none false [("0.0.2", bareRel v002)])).2 = true := by
  decide

theorem buildLoop_skip_iff (cur : Version) (minW : Nat) (e : String × GithubRelease) :
    (¬ e.2.version.channel.weight < minW ∧
        ¬ (cur.branch.isSome && !(decide (cur.branch = e.2.version.branch))) = true) ↔
      isCompat cur minW e = true := by
  cases h : cur.branch with
  | none => simp [isCompat, h, Nat.not_lt]
  | some b => simp [isCompat, h, Nat.not_lt]

theorem buildLoop_cands (cur : Version) (minW : Nat) :
    ∀ (l : List (String × GithubRelease)) (lr : Option Version)
      (acc : List (String × GithubRelease)),
      (buildLoop cur minW l lr acc).2 =
        acc ++ (l.filter (isCandidate cur minW)).map
          (fun e => (e.2.version.versionStr, e.2)) := by
  intro l
  induction l with
  | nil => intro lr acc; simp [buildLoop]
  | cons e rest ih =>
    intro lr acc
    by_cases h1 : e.2.version.channel.weight < minW
    · have hc : isCompat cur minW e = false := by
        simp [isCompat, Nat.lt_iff_add_one_le] at h1 ⊢
        omega
      simp [buildLoop, h1, ih, List.filter_cons, isCandidate, hc]
    · by_cases h2 : (cur.branch.isSome && !(decide (cur.branch = e.2.version.branch))) = true
      · have hc : isCompat cur minW e = false := by
          rcases h : cur.branch with _ | b
          · simp [h] at h2
          · simp [isCompat, h] at h2 ⊢
            simp [h2]
        rw [buildLoop]
        simp only [if_neg h1, if_pos h2]
        simp [ih, List.filter_cons, isCandidate, hc]
      · have hc : isCompat cur minW e = true := (buildLoop_skip_iff cur minW e).1 ⟨h1, h2⟩
        rw [buildLoop]
        simp only [if_neg h1, if_neg h2]
        by_cases h3 : vcmp e.2.version cur = .gt
        · simp [h3, ih, List.filter_cons, isCandidate, hc, beq_iff_eq]
        · simp [h3, ih, List.filter_cons, isCandidate, hc, beq_iff_eq]

theorem buildLoop_lr (cur : Version) (minW : Nat) :
    ∀ (l : List (String × GithubRelease)) (lr : Option Version)
      (acc : List (String × GithubRelease)),
      (buildLoop cur minW l lr acc).1 = maxFoldLR lr (l.filter (isCompat cur minW)) := by
  intro l
  induction l with
  | nil => intro lr acc; simp [buildLoop, maxFoldLR]
  | cons e rest ih =>
    intro lr acc
    by_cases h1 : e.2.version.channel.weight < minW
    · have hc : isCompat cur minW e = false := by
        simp [isCompat, Nat.lt_iff_add_one_le] at h1 ⊢
        omega
      simp [buildLoop, h1, ih, List.filter_cons, hc, maxFoldLR]
    · by_cases h2 : (cur.branch.isSome && !(decide (cur.branch = e.2.version.branch))) = true
      · have hc : isCompat cur minW e = false := by
          rcases h : cur.branch with _ | b
          · simp [h] at h2
          · simp [isCompat, h] at h2 ⊢
            simp [h2]
        rw [buildLoop]
        simp only [if_neg h1, if_pos h2]
        simp [ih, List.filter_cons, hc, maxFoldLR]
      · have hc : isCompat cur minW e = true := (buildLoop_skip_iff cur minW e).1 ⟨h1, h2⟩
        rw [buildLoop]
        simp only [if_neg h1, if_neg h2]
        by_cases h3 : vcmp e.2.version cur = .gt
        · simp [h3, ih, List.filter_cons, hc, maxFoldLR]
        · simp [h3, ih, List.filter_cons, hc, maxFoldLR]

/-! ### Claim C3 — branch extraction -/

/-- With at least two dots in the prerelease (at least three dot-split
tokens), the branch capture is the second-to-last token. -/
theorem reBranch_eq_getElem (p : List Char) (h : 3 ≤ (splitOnDot p).length) :
    reBranch p = (splitOnDot p)[(splitOnDot p).length - 2]? := by
  have hrev := List.getElem?_reverse' (l := splitOnDot p) 1 ((splitOnDot p).length - 2)
    (by omega)
  have hlen : 3 ≤ (splitOnDot p).reverse.length := by
    rw [List.length_reverse]
    exact h
  rcases hr : (splitOnDot p).reverse with _ | ⟨a, _ | ⟨b, _ | ⟨c, rest⟩⟩⟩
  · rw [hr] at hlen
    simp at hlen
  · rw [hr] at hlen
    simp at hlen
  · rw [hr] at hlen
    simp at hlen
  · rw [hr] at hrev
    rw [← hrev]
    simp [reBranch, hr]

/-- With fewer than two dots in the prerelease the branch regex does not
match (`.group` raises `AttributeError`). -/
theorem reBranch_eq_none (p : List Char) (h : (splitOnDot p).length < 3) :
    reBranch p = none := by
  rcases hr : (splitOnDot p).reverse with _ | ⟨a, _ | ⟨b, _ | ⟨c, rest⟩⟩⟩
  · simp [reBranch, hr]
  · simp [reBranch, hr]
  · simp [reBranch, hr]
  · have hlen := congrArg List.length hr
    rw [List.length_reverse] at hlen
    simp [List.length_cons] at hlen
    omega

/-- **C3** (corrected) — counterexample.  On the valid version
`0.0.1-alpha.b.c.d` construction succeeds but `branch` is `'c'` (the token
between the last two dots), not `'b'`, the token immediately following the
channel prefix that the claim requires. -/
theorem claim_C3_counterexample :
    Version.make "0.0.1-alpha.b.c.d" = .ok vC3 ∧
      vC3.branch = some "c".data ∧
      (splitOnDot "alpha.b.c.d".data)[1]? = some "b".data ∧
      some "c".data ≠ some "b".data := by decide

/-- **C3** (corrected) — amended claim.  For a valid version whose
prerelease starts with `alpha.` or `beta.`, construction succeeds exactly
when the prerelease contains at least two dots (at least three dot-split
tokens), and then `branch` is the *second-to-last* token of the prerelease
— which coincides with the token following the channel prefix only for the
three-token shape such as `alpha.test.15`; with fewer than two dots,
construction fails (the `AttributeError` of the unmatched branch regex). -/
theorem claim_C3_branch_extraction (s : String) (i : SemVerInfo) (p : List Char)
    (hp : parseSemverL s.data = some i) (hpre : i.prerelease = some p)
    (hch : List.isPrefixOf "alpha.".data p = true ∨ List.isPrefixOf "beta.".data p = true) :
    (3 ≤ (splitOnDot p).length →
      ∃ v : Version, Version.make s = .ok v ∧
        v.branch = (splitOnDot p)[(splitOnDot p).length - 2]? ∧
        (v.channel = .alpha ∨ v.channel = .beta)) ∧
      ((splitOnDot p).length < 3 → Version.make s = .error .branchMatchFailure) := by
  by_cases ha : List.isPrefixOf "alpha.".data p = true
  · constructor
    · intro hlen
      rcases hb : (splitOnDot p)[(splitOnDot p).length - 2]? with _ | b
      · rw [List.getElem?_eq_none_iff] at hb
        omega
      · refine ⟨⟨s, i, .alpha, some b⟩, ?_, rfl, Or.inl rfl⟩
        simp [Version.make, hp, hpre, ha, reBranch_eq_getElem p hlen, hb]
    · intro hlen
      simp [Version.make, hp, hpre, ha, reBranch_eq_none p hlen]
  · by_cases hbeta : List.isPrefixOf "beta.".data p = true
    · constructor
      · intro hlen
        rcases hb : (splitOnDot p)[(splitOnDot p).length - 2]? with _ | b
        · rw [List.getElem?_eq_none_iff] at hb
          omega
        · refine ⟨⟨s, i, .beta, some b⟩, ?_, rfl, Or.inr rfl⟩
          simp [Version.make, hp, hpre, ha, hbeta, reBranch_eq_getElem p hlen, hb]
      · intro hlen
        simp [Version.make, hp, hpre, ha, hbeta, reBranch_eq_none p hlen]
    · rcases hch with h | h
      · exact absurd h ha
      · exact absurd h hbeta

theorem claim_C3_branch_extraction_witness :
    (3 ≤ (splitOnDot "alpha.test.15".data).length →
      ∃ v : Version, Version.make "0.0.0-alpha.test.15" = .ok v ∧
        v.branch =
          (splitOnDot "alpha.test.15".data)[(splitOnDot "alpha.test.15".data).length - 2]? ∧
        (v.channel = .alpha ∨ v.channel = .beta)) ∧
      ((splitOnDot "alpha.test.15".data).length < 3 →
        Version.make "0.0.0-alpha.test.15" = .error .branchMatchFailure) :=
  claim_C3_branch_extraction "0.0.0-alpha.test.15"
    ⟨0, 0, 0, some "alpha.test.15".data, none⟩ "alpha.test.15".data
    (by decide) rfl (Or.inl (by decide))

/-! ### Stage bookkeeping lemmas -/

theorem buildCandidatesList_preserves (s : UpdaterState) :
    (buildCandidatesList s).1.autoUpdate = s.autoUpdate ∧
      (buildCandidatesList s).1.hasCancelHook = s.hasCancelHook ∧
      (buildCandidatesList s).1.updateReadyToInstall = s.updateReadyToInstall := by
  simp [buildCandidatesList]

theorem processCandidates_preserves (s : UpdaterState) :
    (processCandidates s).1.autoUpdate = s.autoUpdate ∧
      (processCandidates s).1.hasCancelHook = s.hasCancelHook ∧
      (processCandidates s).1.updateReadyToInstall = s.updateReadyToInstall := by
  unfold processCandidates
  split
  · simp
  · split
    · simp
    · simp

theorem dlLoop_state_fields (dlOk : String → Bool) (fn : String) :
    ∀ (assets : List Asset) (out : StageOut),
      (dlLoop dlOk fn assets out).state.hasCancelHook = out.state.hasCancelHook ∧
        (dlLoop dlOk fn assets out).state.autoUpdate = out.state.autoUpdate := by
  intro assets
  induction assets with
  | nil => intro out; simp [dlLoop]
  | cons a rest ih =>
    intro out
    by_cases h : a.name.toLower = fn.toLower
    · by_cases h2 : dlOk a.url = true
      · simp [dlLoop, h, h2, ih]
      · simp [dlLoop, h, h2, ih]
    · simp [dlLoop, h, ih]

theorem downloadStage_hook (dlOk : String → Bool) (s : UpdaterState) :
    (downloadStage dlOk s).state.hasCancelHook = s.hasCancelHook := by
  unfold downloadStage
  split
  · split
    · simp
    · rw [(dlLoop_state_fields dlOk _ _ _).1]
  · simp

/-! ### Claim C6 — the candidate filter of `_build_candidates_list` -/

/-- **C6** (confirmed).  For every current version, requested channel and
catalog, `_build_candidates_list` collects into `_candidates` exactly the
entries whose channel rank is at least the requested channel's rank, whose
branch equals the current branch whenever the current version has one, and
whose version strictly exceeds the current version (in catalog order, keyed
by the entry's version string); and it returns `True` iff that set is
non-empty. -/
theorem claim_C6_build_candidates (s : UpdaterState) :
    (buildCandidatesList s).1.candidates =
      (s.available.filter (isCandidate s.current s.channel.weight)).map
        (fun e => (e.2.version.versionStr, e.2)) ∧
      ((buildCandidatesList s).2 = true ↔ (buildCandidatesList s).1.candidates ≠ []) := by
  constructor
  · simp [buildCandidatesList, buildLoop_cands]
  · simp [buildCandidatesList, buildLoop_cands]

/-- **C5** (corrected) — counterexample.  After `_build_candidates_list`
runs on `stC5`, `latest_remote` is still `2.0.0`, not the catalog's highest
compatible entry `1.0.0`: the value left by a previous version-check cycle
is never reset. -/
theorem claim_C5_counterexample :
    Version.make "1.0.0" = .ok v100 ∧ Version.make "2.0.0" = .ok v200 ∧
      (buildCandidatesList stC5).1.latestRemote = some v200 ∧
      maxFoldLR none (stC5.available.filter (isCompat stC5.current stC5.channel.weight)) =
        some v100 ∧
      some v200 ≠ (some v100 : Option Version) := by decide

/-- **C5** (corrected) — amended claim.  `_build_candidates_list` folds the
channel-and-branch-compatible entries into `latest_remote` *starting from
its previous value*: the result is the maximum of the prior value and the
highest compatible entry.  Only when `latest_remote` starts the check as
`None` (e.g. on a freshly constructed updater) does it equal the highest
compatible entry of the current catalog alone. -/
theorem claim_C5_latest_remote_fold (s : UpdaterState) :
    (buildCandidatesList s).1.latestRemote =
      maxFoldLR s.latestRemote (s.available.filter (isCompat s.current s.channel.weight)) ∧
      (s.latestRemote = none →
        (buildCandidatesList s).1.latestRemote =
          maxFoldLR none (s.available.filter (isCompat s.current s.channel.weight))) := by
  refine ⟨by simp [buildCandidatesList, buildLoop_lr], fun h => ?_⟩
  rw [← h]
  simp [buildCandidatesList, buildLoop_lr]

theorem claim_C5_latest_remote_fold_witness :
    stC5w.latestRemote = none ∧
      (buildCandidatesList stC5w).1.latestRemote =
        maxFoldLR none (stC5w.available.filter (isCompat stC5w.current stC5w.channel.weight)) :=
  ⟨rfl, (claim_C5_latest_remote_fold stC5w).2 rfl⟩

/-- **C1** (code bug).  `_process_candidates` compares each candidate
against `self._current` instead of the running `latest` (the debug log
`comparing "latest" and "version"` and the `latest = version` update show
the intended running maximum), so every candidate above current overwrites
`latest_candidate` and the *last iterated* one wins.  On `stC1` the method
returns `True` but selects the `0.0.2` release even though the strictly
greater candidate `0.0.3` is present. -/
theorem claim_C1_latest_candidate_bug :
    Version.make "0.0.1" = .ok v001 ∧ Version.make "0.0.2" = .ok v002 ∧
      Version.make "0.0.3" = .ok v003 ∧
      (processCandidates stC1).1.latestCandidate = some (bareRel v002) ∧
      (processCandidates stC1).2.1 = true ∧
      ("0.0.3", bareRel v003) ∈ stC1.candidates ∧
      vcmp v003 v002 = .gt := by decide

/-! ### Claim C4 — `get_latest_release` on prerelease-only catalogs -/

/-- **C4** (code bug).  `get_latest_release` returns `None` on an empty
catalog, but it seeds its maximum with `Version('0.0.0')`; on a catalog
whose only entry is the prerelease `0.0.0-alpha.tst.1` (which orders below
`0.0.0`) no entry ever beats the sentinel and the final
`self.data[latest.version_str]` lookup raises `KeyError('0.0.0')` instead of
returning the entry. -/
theorem claim_C4_get_latest_keyerror :
    getLatestRelease [] = .ok none ∧
      Version.make "0.0.0-alpha.tst.1" = .ok v000a ∧
      vcmp v000a sentinel000 = .lt ∧
      getLatestRelease [("0.0.0-alpha.tst.1", bareRel v000a)] = .error "0.0.0" := by decide

/-! ### Claim C7 — classification of the four invalid version strings -/

/-- **C7** (corrected) — counterexample.  `"0.0.1-alpha+test.15"` *is*
grammatically valid semver (prerelease `alpha`, build `test.15`), so
`semver.parse` accepts it and the failure is `_parse`'s
`ValueError(info.prerelease)` — the spec's `UnknownPrereleasePrefix` — not
the `InvalidVersionFormat` the claim asserts. -/
theorem claim_C7_counterexample :
    Version.make "0.0.1-alpha+test.15" =
      .error (.unknownPrereleasePrefix "alpha".data) ∧
      (Except.error (VersionError.unknownPrereleasePrefix "alpha".data) :
          Except VersionError Version) ≠
        .error (.invalidVersionFormat "0.0.1-alpha+test.15") := by decide

/-- **C7** (corrected) — amended claim.  `"0.0"`, `"0.0.0.0"` and `"0+0.0"`
fail with `InvalidVersionFormat`; `"0.0.1-alpha+test.15"` also fails at
construction, but with `UnknownPrereleasePrefix('alpha')`. -/
theorem claim_C7_error_classification :
    Version.make "0.0" = .error (.invalidVersionFormat "0.0") ∧
      Version.make "0.0.0.0" = .error (.invalidVersionFormat "0.0.0.0") ∧
      Version.make "0+0.0" = .error (.invalidVersionFormat "0+0.0") ∧
      Version.make "0.0.1-alpha+test.15" =
        .error (.unknownPrereleasePrefix "alpha".data) := by decide

/-- **C2** (corrected) — counterexample.  On `stC2` the version check finds
a candidate, the pre-update hook rejects (`_process_candidates` returns
`False` and calls the cancel hook), yet the already-queued download stage
(no candidate selected) and install stage (ready flag clear) each call the
cancel hook again: three invocations in a single cycle, not exactly one. -/
theorem claim_C2_counterexample :
    (runCycle dlOkAll stC2).vcFound = true ∧
      (processCandidates (buildCandidatesList stC2).1).2.1 = false ∧
      (runCycle dlOkAll stC2).cancels = 3 := by decide

/-- **C2** (corrected) — amended claim.  Whenever a cycle whose version
check found candidates fails to reach the install handoff, the registered
cancel callback is invoked *at least* once — but possibly several times
(once per failing stage), not exactly once. -/
theorem claim_C2_cancel_at_least_once (dlOk : String → Bool) (s : UpdaterState)
    (hc : s.hasCancelHook = true) (hv : (runCycle dlOk s).vcFound = true)
    (hh : (runCycle dlOk s).handoff = false) :
    1 ≤ (runCycle dlOk s).cancels := by
  by_cases hb : (buildCandidatesList s).2 = true
  · have hook :
        (downloadStage dlOk (processCandidates (buildCandidatesList s).1).1).state.hasCancelHook
          = true := by
      rw [downloadStage_hook, (processCandidates_preserves _).2.1,
        (buildCandidatesList_preserves _).2.1]
      exact hc
    simp only [runCycle, hb, if_true] at hh ⊢
    by_cases hr :
        (downloadStage dlOk
          (processCandidates (buildCandidatesList s).1).1).state.updateReadyToInstall = true
    · simp [installStage, hr] at hh
    · simp only [installStage, hr, if_neg, if_false, Bool.false_eq_true, reduceIte]
      simp [cancelTick, hook]
  · simp [runCycle, hb] at hv

theorem claim_C2_cancel_at_least_once_witness :
    stC2.hasCancelHook = true ∧ (runCycle dlOkAll stC2).vcFound = true ∧
      (runCycle dlOkAll stC2).handoff = false ∧ 1 ≤ (runCycle dlOkAll stC2).cancels :=
  ⟨rfl, by decide, by decide,
    claim_C2_cancel_at_least_once dlOkAll stC2 rfl (by decide) (by decide)⟩

/-- **C10** (confirmed).  With `auto_update = False`, the download stage is
the identity on the pipeline state and performs no effect at all — no
progress start, no download attempt, no cancel-hook call — and a cycle
started with the ready flag clear (as `__init__` leaves it) can never reach
the install handoff. -/
theorem claim_C10_no_auto_update (dlOk : String → Bool) (s : UpdaterState)
    (h : s.autoUpdate = false) :
    downloadStage dlOk s = ⟨s, 0, 0, 0⟩ ∧
      (s.updateReadyToInstall = false → (runCycle dlOk s).handoff = false) := by
  constructor
  · simp [downloadStage, h]
  · intro hr
    by_cases hb : (buildCandidatesList s).2 = true
    · have h2 : (processCandidates (buildCandidatesList s).1).1.autoUpdate = false := by
        rw [(processCandidates_preserves _).1, (buildCandidatesList_preserves _).1]
        exact h
      have h3 :
          (processCandidates (buildCandidatesList s).1).1.updateReadyToInstall = false := by
        rw [(processCandidates_preserves _).2.2, (buildCandidatesList_preserves _).2.2]
        exact hr
      simp only [runCycle, hb, if_true]
      simp [downloadStage, h2, installStage, h3]
    · simp [runCycle, hb]

/-! ### Claim C9 — `filter_by_branch` -/

/-- **C9** (confirmed).  `filter_by_branch(channel, branch)` keeps exactly
the entries that pass the channel filter and whose branch, when present
(and non-empty, which every parsed branch is), equals the caller's branch;
entries without a branch always pass.  In particular, with an absent
caller branch every branch-carrying entry of a well-formed catalog is
excluded. -/
theorem claim_C9_filter_by_branch (cat : List (String × GithubRelease)) (ch : Channel)
    (br : Option (List Char)) :
    (filterByBranch cat ch br).entries =
      cat.filter (fun e =>
        decide (ch.weight ≤ e.2.version.channel.weight) &&
          keepByBranch br e.2.version.branch) ∧
      ((∀ e ∈ cat, e.2.version.branch ≠ some []) → br = none →
        ∀ e ∈ (filterByBranch cat ch br).entries, e.2.version.branch = none) := by
  have main :
      (filterByBranch cat ch br).entries =
        cat.filter (fun e =>
          decide (ch.weight ≤ e.2.version.channel.weight) &&
            keepByBranch br e.2.version.branch) := by
    unfold filterByBranch filterByChannel
    by_cases hemp : cat.isEmpty
    · have : cat = [] := by simpa [List.isEmpty_iff] using hemp
      simp [this, FilterResult.entries]
    · simp only [hemp, Bool.false_eq_true, reduceIte]
      by_cases h2 :
          (cat.filter fun e =>
            decide (ch.weight ≤ e.2.version.channel.weight)).isEmpty
      · have h3 : (cat.filter fun e =>
            decide (ch.weight ≤ e.2.version.channel.weight)) = [] := by
          simpa [List.isEmpty_iff] using h2
        simp [h2, FilterResult.entries, h3, ← List.filter_filter, Bool.and_comm]
      · simp [h2, FilterResult.entries, ← List.filter_filter, Bool.and_comm]
  refine ⟨main, fun hwf hbr e he => ?_⟩
  rw [main] at he
  have hk : keepByBranch br e.2.version.branch = true := by
    have hmf := List.of_mem_filter he
    simp only [Bool.and_eq_true] at hmf
    exact hmf.2
  have hm : e ∈ cat := List.mem_of_mem_filter he
  rcases hb : e.2.version.branch with _ | b
  · rfl
  · exfalso
    rw [hbr, hb] at hk
    unfold keepByBranch at hk
    by_cases hbe : b.isEmpty
    · exact hwf e hm (by rw [hb]; simp [List.isEmpty_iff] at hbe; rw [hbe])
    · simp [hbe] at hk

theorem claim_C9_filter_by_branch_witness :
    (∀ e ∈ catC9, e.2.version.branch ≠ some []) ∧
      (filterByBranch catC9 .alpha none).entries =
        catC9.filter (fun e =>
          decide (Channel.alpha.weight ≤ e.2.version.channel.weight) &&
            keepByBranch none e.2.version.branch) ∧
      ∀ e ∈ (filterByBranch catC9 .alpha none).entries, e.2.version.branch = none :=
  ⟨by decide, (claim_C9_filter_by_branch catC9 .alpha none).1,
    (claim_C9_filter_by_branch catC9 .alpha none).2 (by decide) rfl⟩

theorem claim_C10_no_auto_update_witness :
    stC10.autoUpdate = false ∧ stC10.updateReadyToInstall = false ∧
      downloadStage dlOkAll stC10 = ⟨stC10, 0, 0, 0⟩ ∧
      (runCycle dlOkAll stC10).handoff = false :=
  ⟨rfl, rfl, (claim_C10_no_auto_update dlOkAll stC10 rfl).1,
    (claim_C10_no_auto_update dlOkAll stC10 rfl).2 rfl⟩

theorem cmpNat_lt_iff (a b : Nat) : cmpNat a b = .lt ↔ a < b := by
  unfold cmpNat
  split
  · simp
    omega
  · split
    · simp
      omega
    · simp
      omega

theorem cmpNat_eq_iff (a b : Nat) : cmpNat a b = .eq ↔ a = b := by
  unfold cmpNat
  split
  · simp
    omega
  · split
    · simp
      omega
    · simp
      omega

theorem cmpNat_gt_iff (a b : Nat) : cmpNat a b = .gt ↔ b < a := by
  unfold cmpNat
  split
  · simp
    omega
  · split
    · simp
      omega
    · simp
      omega

theorem cmpNat_swap (a b : Nat) : cmpNat a b = (cmpNat b a).swap := by
  unfold cmpNat
  rcases Nat.lt_trichotomy a b with h | h | h
  · simp [h, Nat.lt_asymm h, Ordering.swap]
  · simp [h, Nat.lt_irrefl, Ordering.swap]
  · simp [h, Nat.lt_asymm h, Nat.not_lt_of_lt h, Ordering.swap]

theorem cmpNat_add_left (k a b : Nat) : cmpNat (k + a) (k + b) = cmpNat a b := by
  unfold cmpNat
  rcases Nat.lt_trichotomy a b with h | h | h
  · simp [h, Nat.add_lt_add_iff_left]
  · simp [h]
  · simp [Nat.lt_asymm h, Nat.not_lt_of_lt h, Nat.add_lt_add_iff_left, h]

theorem char_toNat_inj (a b : Char) (h : a.toNat = b.toNat) : a = b := by
  rcases a with ⟨av, ha⟩
  rcases b with ⟨bv, hb⟩
  have hv : av = bv := UInt32.toNat.inj h
  subst hv
  rfl

theorem cmpChars_eq_iff : ∀ (as bs : List Char), cmpChars as bs = .eq ↔ as = bs := by
  intro as
  induction as with
  | nil =>
    intro bs
    rcases bs with _ | ⟨b, bs⟩
    · simp [cmpChars]
    · simp [cmpChars]
  | cons a as ih =>
    intro bs
    rcases bs with _ | ⟨b, bs⟩
    · simp [cmpChars]
    · unfold cmpChars
      by_cases h1 : a.toNat < b.toNat
      · simp [h1]
        intro h
        subst h
        omega
      · by_cases h2 : b.toNat < a.toNat
        · simp [h1, h2]
          intro h
          subst h
          omega
        · have hab : a = b := char_toNat_inj a b (by omega)
          subst hab
          simp [h1, h2, ih]

theorem cmpChars_swap : ∀ (as bs : List Char), cmpChars as bs = (cmpChars bs as).swap := by
  intro as
  induction as with
  | nil =>
    intro bs
    rcases bs with _ | ⟨b, bs⟩
    · simp [cmpChars, Ordering.swap]
    · simp [cmpChars, Ordering.swap]
  | cons a as ih =>
    intro bs
    rcases bs with _ | ⟨b, bs⟩
    · simp [cmpChars, Ordering.swap]
    · unfold cmpChars
      by_cases h1 : a.toNat < b.toNat
      · simp [h1, Nat.lt_asymm h1, Ordering.swap]
      · by_cases h2 : b.toNat < a.toNat
        · simp [h1, h2, Ordering.swap]
        · simp [h1, h2, ih]

theorem cmpChars_lt_trans :
    ∀ (as bs cs : List Char), cmpChars as bs = .lt → cmpChars bs cs = .lt →
      cmpChars as cs = .lt := by
  intro as
  induction as with
  | nil =>
    intro bs cs h1 h2
    rcases bs with _ | ⟨b, bs⟩
    · simp [cmpChars] at h1
    · rcases cs with _ | ⟨c, cs⟩
      · simp [cmpChars] at h2
      · simp [cmpChars]
  | cons a as ih =>
    intro bs cs h1 h2
    rcases bs with _ | ⟨b, bs⟩
    · simp [cmpChars] at h1
    · rcases cs with _ | ⟨c, cs⟩
      · simp [cmpChars] at h2
      · unfold cmpChars at h1 h2 ⊢
        by_cases hab : a.toNat < b.toNat
        · by_cases hbc : b.toNat < c.toNat
          · simp [Nat.lt_trans hab hbc]
          · by_cases hcb : c.toNat < b.toNat
            · simp [hbc, hcb] at h2
            · have : b.toNat = c.toNat := by omega
              simp [this] at hab
              simp [hab]
        · by_cases hba : b.toNat < a.toNat
          · simp [hab, hba] at h1
          · by_cases hbc : b.toNat < c.toNat
            · have hac : a.toNat < c.toNat := by omega
              simp [hac]
            · by_cases hcb : c.toNat < b.toNat
              · simp [hbc, hcb] at h2
              · have hac1 : ¬ a.toNat < c.toNat := by omega
                have hac2 : ¬ c.toNat < a.toNat := by omega
                simp [hab, hba] at h1
                simp [hbc, hcb] at h2
                simp [hac1, hac2]
                exact ih bs cs h1 h2

theorem cmpTag_eq_iff (x y : PreId) : cmpTag x y = .eq ↔ x = y := by
  rcases x with m | p
  · rcases y with n | q
    · simp [cmpTag, cmpNat_eq_iff]
    · simp [cmpTag]
  · rcases y with n | q
    · simp [cmpTag]
    · simp [cmpTag, cmpChars_eq_iff]

theorem cmpTag_swap (x y : PreId) : cmpTag x y = (cmpTag y x).swap := by
  rcases x with m | p
  · rcases y with n | q
    · exact cmpNat_swap m n
    · simp [cmpTag, Ordering.swap]
  · rcases y with n | q
    · simp [cmpTag, Ordering.swap]
    · exact cmpChars_swap p q

theorem cmpTag_lt_trans (x y z : PreId) (h1 : cmpTag x y = .lt) (h2 : cmpTag y z = .lt) :
    cmpTag x z = .lt := by
  rcases x with m | p
  · rcases y with k | r
    · rcases z with n | q
      · simp only [cmpTag] at h1 h2 ⊢
        rw [cmpNat_lt_iff] at h1 h2 ⊢
        omega
      · simp [cmpTag]
    · rcases z with n | q
      · simp [cmpTag] at h2
      · simp [cmpTag]
  · rcases y with k | r
    · simp [cmpTag] at h1
    · rcases z with n | q
      · simp [cmpTag] at h2
      · simp only [cmpTag] at h1 h2 ⊢
        exact cmpChars_lt_trans p r q h1 h2

theorem listCmp_eq_iff : ∀ (as bs : List PreId), listCmp as bs = .eq ↔ as = bs := by
  intro as
  induction as with
  | nil =>
    intro bs
    rcases bs with _ | ⟨b, bs⟩
    · simp [listCmp]
    · simp [listCmp]
  | cons a as ih =>
    intro bs
    rcases bs with _ | ⟨b, bs⟩
    · simp [listCmp]
    · unfold listCmp
      rcases h : cmpTag a b with _ | _ | _
      · constructor
        · intro hfalse
          exact absurd hfalse (by simp)
        · intro hceq
          injection hceq with hhd htl
          rw [hhd, (cmpTag_eq_iff b b).2 rfl] at h
          exact absurd h (by simp)
      · rw [cmpTag_eq_iff] at h
        subst h
        simp [ih]
      · constructor
        · intro hfalse
          exact absurd hfalse (by simp)
        · intro hceq
          injection hceq with hhd htl
          rw [hhd, (cmpTag_eq_iff b b).2 rfl] at h
          exact absurd h (by simp)

theorem listCmp_swap : ∀ (as bs : List PreId), listCmp as bs = (listCmp bs as).swap := by
  intro as
  induction as with
  | nil =>
    intro bs
    rcases bs with _ | ⟨b, bs⟩
    · simp [listCmp, Ordering.swap]
    · simp [listCmp, Ordering.swap]
  | cons a as ih =>
    intro bs
    rcases bs with _ | ⟨b, bs⟩
    · simp [listCmp, Ordering.swap]
    · unfold listCmp
      rw [cmpTag_swap a b]
      rcases h : cmpTag b a with _ | _ | _
      · simp [Ordering.swap]
      · simp [Ordering.swap, ih]
      · simp [Ordering.swap]

theorem listCmp_lt_trans :
    ∀ (as bs cs : List PreId), listCmp as bs = .lt → listCmp bs cs = .lt →
      listCmp as cs = .lt := by
  intro as
  induction as with
  | nil =>
    intro bs cs h1 h2
    rcases bs with _ | ⟨b, bs⟩
    · simp [listCmp] at h1
    · rcases cs with _ | ⟨c, cs⟩
      · simp [listCmp] at h2
      · simp [listCmp]
  | cons a as ih =>
    intro bs cs h1 h2
    rcases bs with _ | ⟨b, bs⟩
    · simp [listCmp] at h1
    · rcases cs with _ | ⟨c, cs⟩
      · simp [listCmp] at h2
      · unfold listCmp at h1 h2 ⊢
        rcases hab : cmpTag a b with _ | _ | _
        · rcases hbc : cmpTag b c with _ | _ | _
          · simp [cmpTag_lt_trans a b c hab hbc]
          · rw [cmpTag_eq_iff] at hbc
            subst hbc
            simp [hab]
          · rw [hbc] at h2
            exact absurd h2 (by simp)
        · rw [cmpTag_eq_iff] at hab
          subst hab
          have hrefl : cmpTag a a = .eq := (cmpTag_eq_iff a a).2 rfl
          rw [hrefl] at h1
          rcases hac : cmpTag a c with _ | _ | _
          · simp
          · rw [hac] at h2
            simp [ih bs cs h1 h2]
          · rw [hac] at h2
            exact absurd h2 (by simp)
        · rw [hab] at h1
          exact absurd h1 (by simp)

theorem decValGo_split (cs : List Char) :
    ∀ a : Nat, decValGo a cs = a * 10 ^ cs.length + decValGo 0 cs := by
  induction cs with
  | nil =>
    intro a
    show a = a * 10 ^ (0 : Nat) + 0
    simp
  | cons c cs ih =>
    intro a
    show decValGo (a * 10 + digitVal c) cs =
      a * 10 ^ (c :: cs).length + decValGo (0 * 10 + digitVal c) cs
    rw [ih (a * 10 + digitVal c), ih (0 * 10 + digitVal c)]
    rw [List.length_cons]
    ring

theorem digitVal_lt_ten (c : Char) (h : isDigitChar c = true) : digitVal c < 10 := by
  simp [isDigitChar] at h
  simp [digitVal]
  omega

theorem decVal_cons (c : Char) (cs : List Char) :
    decVal (c :: cs) = digitVal c * 10 ^ cs.length + decVal cs := by
  show decValGo (0 * 10 + digitVal c) cs = digitVal c * 10 ^ cs.length + decValGo 0 cs
  rw [decValGo_split]
  simp

theorem decVal_lt (cs : List Char) (h : cs.all isDigitChar = true) :
    decVal cs < 10 ^ cs.length := by
  induction cs with
  | nil =>
    show (0 : Nat) < 10 ^ (0 : Nat)
    simp
  | cons c cs ih =>
    simp only [List.all_cons, Bool.and_eq_true] at h
    have h1 := digitVal_lt_ten c h.1
    have h2 := ih h.2
    rw [decVal_cons]
    calc digitVal c * 10 ^ cs.length + decVal cs
        < digitVal c * 10 ^ cs.length + 10 ^ cs.length := Nat.add_lt_add_left h2 _
      _ = (digitVal c + 1) * 10 ^ cs.length := by ring
      _ ≤ 10 * 10 ^ cs.length := Nat.mul_le_mul_right _ (by omega)
      _ = 10 ^ (c :: cs).length := by
          rw [List.length_cons]
          ring

theorem char_ne_zero_toNat (c : Char) (hd : isDigitChar c = true) (hc : c ≠ '0') :
    1 ≤ digitVal c := by
  have h48 : c.toNat ≠ 48 := by
    intro h
    exact hc (char_toNat_inj c '0' (by rw [h]; rfl))
  simp [isDigitChar] at hd
  simp [digitVal]
  omega

theorem decVal_ge (c : Char) (cs : List Char) (hd : isDigitChar c = true) (hc : c ≠ '0') :
    10 ^ cs.length ≤ decVal (c :: cs) := by
  rw [decVal_cons]
  have h1 := char_ne_zero_toNat c hd hc
  calc 10 ^ cs.length = 1 * 10 ^ cs.length := by ring
    _ ≤ digitVal c * 10 ^ cs.length := Nat.mul_le_mul_right _ h1
    _ ≤ digitVal c * 10 ^ cs.length + decVal cs := Nat.le_add_right _ _

theorem mul_add_inj (K a b r r' : Nat) (hr : r < K) (hr' : r' < K)
    (h : a * K + r = b * K + r') : a = b ∧ r = r' := by
  rcases Nat.lt_trichotomy a b with hab | hab | hab
  · exfalso
    have hstep : (a + 1) * K ≤ b * K := Nat.mul_le_mul_right _ (by omega)
    rw [Nat.add_mul, one_mul] at hstep
    have h2 : b * K ≤ a * K + r := by
      calc b * K ≤ b * K + r' := Nat.le_add_right _ _
        _ = a * K + r := h.symm
    have hlt : b * K < a * K + K := lt_of_le_of_lt h2 (Nat.add_lt_add_left hr _)
    exact absurd (lt_of_lt_of_le hlt hstep) (Nat.lt_irrefl _)
  · subst hab
    exact ⟨rfl, Nat.add_left_cancel h⟩
  · exfalso
    have hstep : (b + 1) * K ≤ a * K := Nat.mul_le_mul_right _ (by omega)
    rw [Nat.add_mul, one_mul] at hstep
    have h2 : a * K ≤ b * K + r' := by
      calc a * K ≤ a * K + r := Nat.le_add_right _ _
        _ = b * K + r' := h
    have hlt : a * K < b * K + K := lt_of_le_of_lt h2 (Nat.add_lt_add_left hr' _)
    exact absurd (lt_of_lt_of_le hlt hstep) (Nat.lt_irrefl _)

theorem canonNumeric_all_digits (p : List Char) (h : canonNumeric p = true) :
    p.all isDigitChar = true := by
  rcases p with _ | ⟨c, cs⟩
  · simp [canonNumeric] at h
  · simp only [canonNumeric, Bool.and_eq_true] at h
    exact h.1

theorem canonNumeric_ne_nil (p : List Char) (h : canonNumeric p = true) : p ≠ [] := by
  intro he
  subst he
  simp [canonNumeric] at h

theorem decVal_lt_of_len_lt (p q : List Char) (hp : canonNumeric p = true)
    (hq : canonNumeric q = true) (hlen : p.length < q.length) : decVal p < decVal q := by
  rcases q with _ | ⟨d, ds⟩
  · simp at hlen
  · simp only [canonNumeric, Bool.and_eq_true] at hq
    rcases hq with ⟨hqd, hq2⟩
    simp only [Bool.or_eq_true, decide_eq_true_eq] at hq2
    rcases hq2 with hd0 | hnil
    · have hge : 10 ^ ds.length ≤ decVal (d :: ds) :=
        decVal_ge d ds (by simp [List.all_cons, Bool.and_eq_true] at hqd; exact hqd.1) hd0
      have hlt : decVal p < 10 ^ p.length := decVal_lt p (canonNumeric_all_digits p hp)
      have hpow : (10 : Nat) ^ p.length ≤ 10 ^ ds.length :=
        Nat.pow_le_pow_right (by omega) (by simp [List.length_cons] at hlen; omega)
      omega
    · subst hnil
      rw [List.length_cons, List.length_nil] at hlen
      have hz : p.length = 0 := by omega
      exact absurd (List.length_eq_zero.1 hz) (canonNumeric_ne_nil p hp)

theorem decVal_len_eq (p q : List Char) (hp : canonNumeric p = true)
    (hq : canonNumeric q = true) (h : decVal p = decVal q) : p.length = q.length := by
  rcases Nat.lt_trichotomy p.length q.length with hl | hl | hl
  · exact absurd h (Nat.ne_of_lt (decVal_lt_of_len_lt p q hp hq hl))
  · exact hl
  · exact absurd h.symm (Nat.ne_of_lt (decVal_lt_of_len_lt q p hq hp hl))

theorem digitVal_inj (c d : Char) (hc : isDigitChar c = true) (hd : isDigitChar d = true)
    (h : digitVal c = digitVal d) : c = d := by
  apply char_toNat_inj
  simp [isDigitChar] at hc hd
  simp [digitVal] at h
  omega

theorem decVal_inj_aux :
    ∀ (p q : List Char), p.length = q.length → p.all isDigitChar = true →
      q.all isDigitChar = true → decVal p = decVal q → p = q := by
  intro p
  induction p with
  | nil =>
    intro q hlen _ _ _
    symm
    exact List.length_eq_zero.1 hlen.symm
  | cons c cs ih =>
    intro q hlen hp hq hv
    rcases q with _ | ⟨d, ds⟩
    · simp at hlen
    · simp only [List.length_cons] at hlen
      have hlen' : cs.length = ds.length := by omega
      simp only [List.all_cons, Bool.and_eq_true] at hp hq
      rw [decVal_cons, decVal_cons, hlen'] at hv
      have hb1 : decVal cs < 10 ^ ds.length := by
        rw [← hlen']
        exact decVal_lt cs hp.2
      have hb2 : decVal ds < 10 ^ ds.length := decVal_lt ds hq.2
      have hinj := mul_add_inj (10 ^ ds.length) (digitVal c) (digitVal d)
        (decVal cs) (decVal ds) hb1 hb2 hv
      have hcd : c = d := digitVal_inj c d hp.1 hq.1 hinj.1
      have htl : cs = ds := ih ds hlen' hp.2 hq.2 hinj.2
      rw [hcd, htl]

theorem decVal_inj (p q : List Char) (hp : canonNumeric p = true)
    (hq : canonNumeric q = true) (h : decVal p = decVal q) : p = q :=
  decVal_inj_aux p q (decVal_len_eq p q hp hq h) (canonNumeric_all_digits p hp)
    (canonNumeric_all_digits q hq) h

theorem validPreIdent_ne_nil (p : List Char) (h : validPreIdent p = true) : p ≠ [] := by
  intro he
  subst he
  simp [validPreIdent, canonNumeric] at h

theorem validPreIdent_canon (p : List Char) (h : validPreIdent p = true)
    (hd : p.all isDigitChar = true) : canonNumeric p = true := by
  simp only [validPreIdent, Bool.or_eq_true, Bool.and_eq_true] at h
  rcases h with h | h
  · exact h
  · rw [hd] at h
    simp at h

theorem convertPart_inj (p q : List Char) (hp : validPreIdent p = true)
    (hq : validPreIdent q = true) (h : convertPart p = convertPart q) : p = q := by
  unfold convertPart at h
  by_cases h1 : (decide (p ≠ []) && p.all isDigitChar) = true
  · by_cases h2 : (decide (q ≠ []) && q.all isDigitChar) = true
    · rw [if_pos h1, if_pos h2] at h
      injection h with hv
      simp only [Bool.and_eq_true] at h1 h2
      exact decVal_inj p q (validPreIdent_canon p hp h1.2) (validPreIdent_canon q hq h2.2) hv
    · rw [if_pos h1, if_neg h2] at h
      exact absurd h (by simp)
  · by_cases h2 : (decide (q ≠ []) && q.all isDigitChar) = true
    · rw [if_neg h1, if_pos h2] at h
      exact absurd h (by simp)
    · rw [if_neg h1, if_neg h2] at h
      injection h

theorem splitOnDot_ne_nil : ∀ cs : List Char, splitOnDot cs ≠ [] := by
  intro cs
  cases cs with
  | nil => simp [splitOnDot]
  | cons c cs =>
    unfold splitOnDot
    by_cases h : c = '.'
    · simp [h]
    · simp only [h, if_neg, Bool.false_eq_true, reduceIte]
      rcases hs : splitOnDot cs with _ | ⟨p, ps⟩
      · simp
      · simp

theorem joinLen_splitOnDot : ∀ cs : List Char, joinLen (splitOnDot cs) = cs.length := by
  intro cs
  induction cs with
  | nil => simp [splitOnDot, joinLen]
  | cons c cs ih =>
    unfold splitOnDot
    by_cases h : c = '.'
    · simp only [h, reduceIte]
      rcases hs : splitOnDot cs with _ | ⟨p, ps⟩
      · exact absurd hs (splitOnDot_ne_nil cs)
      · rw [hs] at ih
        show List.length [] + 1 + joinLen (p :: ps) = (c :: cs).length
        rw [List.length_cons, ← ih]
        simp
        omega
    · simp only [h, Bool.false_eq_true, reduceIte]
      rcases hs : splitOnDot cs with _ | ⟨p, ps⟩
      · exact absurd hs (splitOnDot_ne_nil cs)
      · rw [hs] at ih
        rcases ps with _ | ⟨q, qs⟩
        · show (c :: p).length = (c :: cs).length
          rw [List.length_cons, List.length_cons, ← ih]
          simp [joinLen]
        · show (c :: p).length + 1 + joinLen (q :: qs) = (c :: cs).length
          rw [List.length_cons, List.length_cons, ← ih]
          simp [joinLen]
          omega

theorem joinLen_cons_ge (p : List Char) (ps : List (List Char)) :
    p.length ≤ joinLen (p :: ps) := by
  rcases ps with _ | ⟨q, qs⟩
  · simp [joinLen]
  · simp [joinLen]
    omega

theorem validPreIdent_len_pos (p : List Char) (h : validPreIdent p = true) :
    1 ≤ p.length := by
  rcases p with _ | ⟨c, cs⟩
  · exact absurd rfl (validPreIdent_ne_nil [] h)
  · simp

theorem joinLen_pos (p : List Char) (ps : List (List Char))
    (h : validPreIdent p = true) : 1 ≤ joinLen (p :: ps) :=
  le_trans (validPreIdent_len_pos p h) (joinLen_cons_ge p ps)

theorem cmpNat_joinLen_cons (p q : List Char) (ps qs : List (List Char))
    (hlen : p.length = q.length)
    (hps : ps.all validPreIdent = true) (hqs : qs.all validPreIdent = true) :
    cmpNat (joinLen (p :: ps)) (joinLen (q :: qs)) = cmpNat (joinLen ps) (joinLen qs) := by
  rcases ps with _ | ⟨p1, ps'⟩
  · rcases qs with _ | ⟨q1, qs'⟩
    · show cmpNat p.length q.length = cmpNat 0 0
      rw [(cmpNat_eq_iff p.length q.length).2 hlen, (cmpNat_eq_iff 0 0).2 rfl]
    · simp only [List.all_cons, Bool.and_eq_true] at hqs
      have h1 : 1 ≤ joinLen (q1 :: qs') := joinLen_pos q1 qs' hqs.1
      show cmpNat p.length (q.length + 1 + joinLen (q1 :: qs')) = cmpNat 0 (joinLen (q1 :: qs'))
      rw [(cmpNat_lt_iff p.length _).2 (by omega), (cmpNat_lt_iff 0 _).2 (by omega)]
  · rcases qs with _ | ⟨q1, qs'⟩
    · simp only [List.all_cons, Bool.and_eq_true] at hps
      have h1 : 1 ≤ joinLen (p1 :: ps') := joinLen_pos p1 ps' hps.1
      show cmpNat (p.length + 1 + joinLen (p1 :: ps')) q.length = cmpNat (joinLen (p1 :: ps')) 0
      rw [(cmpNat_gt_iff _ q.length).2 (by omega), (cmpNat_gt_iff _ 0).2 (by omega)]
    · show cmpNat (p.length + 1 + joinLen (p1 :: ps')) (q.length + 1 + joinLen (q1 :: qs')) =
        cmpNat (joinLen (p1 :: ps')) (joinLen (q1 :: qs'))
      rw [hlen]
      exact cmpNat_add_left (q.length + 1) _ _

theorem natCmp_parts_eq_listCmp :
    ∀ (pa pb : List (List Char)), pa.all validPreIdent = true →
      pb.all validPreIdent = true →
      (match lexZip (pa.map convertPart) (pb.map convertPart) with
       | .eq => cmpNat (joinLen pa) (joinLen pb)
       | o => o) = listCmp (pa.map convertPart) (pb.map convertPart) := by
  intro pa
  induction pa with
  | nil =>
    intro pb hpa hpb
    rcases pb with _ | ⟨q, qs⟩
    · show cmpNat 0 0 = Ordering.eq
      rw [(cmpNat_eq_iff 0 0).2 rfl]
    · simp only [List.all_cons, Bool.and_eq_true] at hpb
      have h1 : 1 ≤ joinLen (q :: qs) := joinLen_pos q qs hpb.1
      show cmpNat 0 (joinLen (q :: qs)) = Ordering.lt
      exact (cmpNat_lt_iff 0 _).2 (by omega)
  | cons p ps ih =>
    intro pb hpa hpb
    rcases pb with _ | ⟨q, qs⟩
    · simp only [List.all_cons, Bool.and_eq_true] at hpa
      have h1 : 1 ≤ joinLen (p :: ps) := joinLen_pos p ps hpa.1
      show cmpNat (joinLen (p :: ps)) 0 = Ordering.gt
      exact (cmpNat_gt_iff _ 0).2 (by omega)
    · simp only [List.all_cons, Bool.and_eq_true] at hpa hpb
      simp only [List.map_cons, lexZip, listCmp]
      rcases ht : cmpTag (convertPart p) (convertPart q) with _ | _ | _
      · rfl
      · have hpq : p = q :=
          convertPart_inj p q hpa.1 hpb.1 ((cmpTag_eq_iff _ _).1 ht)
        rw [cmpNat_joinLen_cons p q ps qs (by rw [hpq]) hpa.2 hpb.2]
        exact ih qs hpa.2 hpb.2
      · rfl

theorem natCmpRaw_eq_listCmp (a b : List Char)
    (ha : (splitOnDot a).all validPreIdent = true)
    (hb : (splitOnDot b).all validPreIdent = true) :
    natCmpRaw a b =
      listCmp ((splitOnDot a).map convertPart) ((splitOnDot b).map convertPart) := by
  unfold natCmpRaw
  rw [← joinLen_splitOnDot a, ← joinLen_splitOnDot b]
  exact natCmp_parts_eq_listCmp (splitOnDot a) (splitOnDot b) ha hb

theorem wf_raw_ne_nil (p : List Char)
    (h : (splitOnDot p).all validPreIdent = true) : p ≠ [] := by
  intro he
  subst he
  simp [splitOnDot, validPreIdent, canonNumeric] at h

theorem preFalsy_some_false (p : List Char)
    (h : (splitOnDot p).all validPreIdent = true) : preFalsy (some p) = false := by
  simp [preFalsy]
  exact wf_raw_ne_nil p h

theorem cmpTag_empty_alnum (r : List Char) (hr : validPreIdent r = true) :
    cmpTag (.alnum []) (convertPart r) ≠ .eq := by
  unfold convertPart
  by_cases h : (decide (r ≠ []) && r.all isDigitChar) = true
  · rw [if_pos h]
    simp [cmpTag]
  · rw [if_neg h]
    rcases r with _ | ⟨c, cs⟩
    · exact absurd rfl (validPreIdent_ne_nil [] hr)
    · simp [cmpTag, cmpChars]

theorem natCmpRaw_nil_left (p : List Char)
    (h : (splitOnDot p).all validPreIdent = true) : natCmpRaw [] p ≠ .eq := by
  unfold natCmpRaw
  rcases hs : splitOnDot p with _ | ⟨r, rs⟩
  · exact absurd hs (splitOnDot_ne_nil p)
  · rw [hs] at h
    simp only [List.all_cons, Bool.and_eq_true] at h
    have hne := cmpTag_empty_alnum r h.1
    show (match lexZip ((splitOnDot []).map convertPart) ((r :: rs).map convertPart) with
      | .eq => cmpNat (List.length []) p.length
      | o => o) ≠ .eq
    have hsplit : splitOnDot ([] : List Char) = [[]] := rfl
    rw [hsplit]
    simp only [List.map_cons, List.map_nil, lexZip]
    rcases ht : cmpTag (convertPart []) (convertPart r) with _ | _ | _
    · simp
    · exact absurd ht hne
    · simp

theorem lexZip_swap : ∀ (as bs : List PreId), lexZip as bs = (lexZip bs as).swap := by
  intro as
  induction as with
  | nil =>
    intro bs
    rcases bs with _ | ⟨b, bs⟩
    · simp [lexZip, Ordering.swap]
    · simp [lexZip, Ordering.swap]
  | cons a as ih =>
    intro bs
    rcases bs with _ | ⟨b, bs⟩
    · simp [lexZip, Ordering.swap]
    · simp only [lexZip]
      rw [cmpTag_swap a b]
      rcases cmpTag b a with _ | _ | _
      · simp [Ordering.swap]
      · simp [Ordering.swap, ih]
      · simp [Ordering.swap]

theorem natCmpRaw_swap (a b : List Char) : natCmpRaw a b = (natCmpRaw b a).swap := by
  unfold natCmpRaw
  rw [lexZip_swap ((splitOnDot a).map convertPart) ((splitOnDot b).map convertPart)]
  rcases lexZip ((splitOnDot b).map convertPart) ((splitOnDot a).map convertPart)
    with _ | _ | _
  · simp [Ordering.swap]
  · simp [Ordering.swap]
    exact cmpNat_swap _ _
  · simp [Ordering.swap]

theorem natCmpRaw_nil_right (p : List Char)
    (h : (splitOnDot p).all validPreIdent = true) : natCmpRaw p [] ≠ .eq := by
  rw [natCmpRaw_swap]
  intro hc
  apply natCmpRaw_nil_left p h
  rcases hn : natCmpRaw [] p with _ | _ | _
  · rw [hn] at hc
    exact absurd hc (by simp [Ordering.swap])
  · rfl
  · rw [hn] at hc
    exact absurd hc (by simp [Ordering.swap])

theorem cmpPre_clean (rc1 rc2 : Option (List Char)) (h1 : WfPre rc1 = true)
    (h2 : WfPre rc2 = true) :
    cmpPre rc1 rc2 =
      match rc1, rc2 with
      | none, none => .eq
      | none, some _ => .gt
      | some _, none => .lt
      | some p, some q =>
        listCmp ((splitOnDot p).map convertPart) ((splitOnDot q).map convertPart) := by
  rcases rc1 with _ | p
  · rcases rc2 with _ | q
    · rfl
    · show cmpPre none (some q) = .gt
      have hq : (splitOnDot q).all validPreIdent = true := h2
      unfold cmpPre
      simp only [Option.getD]
      rw [if_neg (natCmpRaw_nil_left q hq)]
      simp [preFalsy]
  · rcases rc2 with _ | q
    · show cmpPre (some p) none = .lt
      have hp : (splitOnDot p).all validPreIdent = true := h1
      unfold cmpPre
      simp only [Option.getD]
      rw [if_neg (natCmpRaw_nil_right p hp)]
      rw [preFalsy_some_false p hp]
      simp [preFalsy]
    · show cmpPre (some p) (some q) =
        listCmp ((splitOnDot p).map convertPart) ((splitOnDot q).map convertPart)
      have hp : (splitOnDot p).all validPreIdent = true := h1
      have hq : (splitOnDot q).all validPreIdent = true := h2
      unfold cmpPre
      simp only [Option.getD]
      rw [natCmpRaw_eq_listCmp p q hp hq]
      by_cases he :
          listCmp ((splitOnDot p).map convertPart) ((splitOnDot q).map convertPart) = .eq
      · rw [if_pos he, he]
      · rw [if_neg he, preFalsy_some_false p hp, preFalsy_some_false q hq]
        simp

theorem cmpPre_swap_wf (rc1 rc2 : Option (List Char)) (h1 : WfPre rc1 = true)
    (h2 : WfPre rc2 = true) : cmpPre rc2 rc1 = (cmpPre rc1 rc2).swap := by
  rw [cmpPre_clean rc1 rc2 h1 h2, cmpPre_clean rc2 rc1 h2 h1]
  rcases rc1 with _ | p
  · rcases rc2 with _ | q
    · rfl
    · rfl
  · rcases rc2 with _ | q
    · rfl
    · exact listCmp_swap _ _

theorem cmpPre_lt_trans (x y z : Option (List Char)) (hx : WfPre x = true)
    (hy : WfPre y = true) (hz : WfPre z = true)
    (h1 : cmpPre x y = .lt) (h2 : cmpPre y z = .lt) : cmpPre x z = .lt := by
  rw [cmpPre_clean x y hx hy] at h1
  rw [cmpPre_clean y z hy hz] at h2
  rw [cmpPre_clean x z hx hz]
  rcases x with _ | p
  · rcases y with _ | q
    · exact absurd h1 (by simp)
    · exact absurd h1 (by simp)
  · rcases y with _ | q
    · rcases z with _ | r
      · exact absurd h2 (by simp)
      · exact absurd h2 (by simp)
    · rcases z with _ | r
      · rfl
      · exact listCmp_lt_trans _ _ _ h1 h2

theorem cmpPre_none_some (p : List Char) (hp : WfPre (some p) = true) :
    cmpPre none (some p) = .gt := by
  rw [cmpPre_clean none (some p) rfl hp]

theorem cmpInfo_swap_wf (a b : SemVerInfo) (ha : wfInfo a = true) (hb : wfInfo b = true) :
    cmpInfo b a = (cmpInfo a b).swap := by
  unfold cmpInfo
  rw [cmpNat_swap b.major a.major, cmpNat_swap b.minor a.minor, cmpNat_swap b.patch a.patch,
    cmpPre_swap_wf a.prerelease b.prerelease ha hb]
  rcases cmpNat a.major b.major with _ | _ | _
  · simp [Ordering.swap]
  · rcases cmpNat a.minor b.minor with _ | _ | _
    · simp [Ordering.swap]
    · rcases cmpNat a.patch b.patch with _ | _ | _
      · simp [Ordering.swap]
      · simp [Ordering.swap]
      · simp [Ordering.swap]
    · simp [Ordering.swap]
  · simp [Ordering.swap]

theorem cmpInfo_lt_iff (a b : SemVerInfo) :
    cmpInfo a b = .lt ↔
      a.major < b.major ∨ (a.major = b.major ∧
        (a.minor < b.minor ∨ (a.minor = b.minor ∧
          (a.patch < b.patch ∨ (a.patch = b.patch ∧
            cmpPre a.prerelease b.prerelease = .lt))))) := by
  unfold cmpInfo
  rcases h1 : cmpNat a.major b.major with _ | _ | _
  · rw [cmpNat_lt_iff] at h1
    simp [h1]
  · rw [cmpNat_eq_iff] at h1
    rcases h2 : cmpNat a.minor b.minor with _ | _ | _
    · rw [cmpNat_lt_iff] at h2
      simp [h1, h2]
    · rw [cmpNat_eq_iff] at h2
      rcases h3 : cmpNat a.patch b.patch with _ | _ | _
      · rw [cmpNat_lt_iff] at h3
        simp [h1, h2, h3]
      · rw [cmpNat_eq_iff] at h3
        simp [h1, h2, h3]
      · rw [cmpNat_gt_iff] at h3
        constructor
        · intro hfalse
          exact absurd hfalse (by simp)
        · intro hr
          exfalso
          rcases hr with hr | ⟨e1, hr⟩
          · omega
          · rcases hr with hr | ⟨e2, hr⟩
            · omega
            · rcases hr with hr | ⟨e3, hr⟩
              · omega
              · omega
    · rw [cmpNat_gt_iff] at h2
      constructor
      · intro hfalse
        exact absurd hfalse (by simp)
      · intro hr
        exfalso
        rcases hr with hr | ⟨e1, hr⟩
        · omega
        · rcases hr with hr | ⟨e2, hr⟩
          · omega
          · omega
  · rw [cmpNat_gt_iff] at h1
    constructor
    · intro hfalse
      exact absurd hfalse (by simp)
    · intro hr
      exfalso
      rcases hr with hr | ⟨e1, hr⟩
      · omega
      · omega

theorem cmpInfo_lt_trans_wf (a b c : SemVerInfo) (ha : wfInfo a = true)
    (hb : wfInfo b = true) (hc : wfInfo c = true)
    (h1 : cmpInfo a b = .lt) (h2 : cmpInfo b c = .lt) : cmpInfo a c = .lt := by
  rw [cmpInfo_lt_iff] at h1 h2 ⊢
  rcases h1 with h1 | ⟨e1, h1⟩
  · rcases h2 with h2 | ⟨e2, h2⟩
    · left; omega
    · left; omega
  · rcases h2 with h2 | ⟨e2, h2⟩
    · left; omega
    · right
      refine ⟨by omega, ?_⟩
      rcases h1 with h1 | ⟨f1, h1⟩
      · rcases h2 with h2 | ⟨f2, h2⟩
        · left; omega
        · left; omega
      · rcases h2 with h2 | ⟨f2, h2⟩
        · left; omega
        · right
          refine ⟨by omega, ?_⟩
          rcases h1 with h1 | ⟨g1, h1⟩
          · rcases h2 with h2 | ⟨g2, h2⟩
            · left; omega
            · left; omega
          · rcases h2 with h2 | ⟨g2, h2⟩
            · left; omega
            · right
              exact ⟨by omega, cmpPre_lt_trans _ _ _ ha hb hc h1 h2⟩

theorem parseSemverL_wf (s : List Char) (i : SemVerInfo)
    (h : parseSemverL s = some i) : wfInfo i = true := by
  unfold parseSemverL at h
  split at h
  · split at h
    · rename_i hcond
      injection h with h
      subst h
      simp only [Bool.and_eq_true] at hcond
      exact hcond.1.2
    · exact absurd h (by simp)
  · exact absurd h (by simp)

theorem make_wf (s : String) (v : Version) (h : Version.make s = .ok v) :
    wfV v = true := by
  unfold Version.make at h
  split at h
  · exact absurd h (by simp)
  · rename_i info heq
    have hwf : wfInfo info = true := parseSemverL_wf s.data info heq
    split at h
    · injection h with h
      subst h
      exact hwf
    · split at h
      · split at h
        · injection h with h
          subst h
          exact hwf
        · exact absurd h (by simp)
      · split at h
        · split at h
          · injection h with h
            subst h
            exact hwf
          · exact absurd h (by simp)
        · split at h
          · injection h with h
            subst h
            exact hwf
          · split at h
            · injection h with h
              subst h
              exact hwf
            · exact absurd h (by simp)

/-- **C8** (confirmed).  On well-formed versions (any output of
`Version.make`, by `make_wf`), the comparison is a total order: `<` is
transitive; comparison is antisymmetric (swapping the arguments swaps the
outcome, so mutual `≤` forces equality); a version without a prerelease
(stable channel) orders strictly above any version with one at the same
`major.minor.patch`; and equality ignores build metadata, so
`Version("0.0.0+1") == Version("0.0.0+999")` while the raw strings
differ. -/
theorem claim_C8_version_order :
    (∀ a b c : Version, wfV a = true → wfV b = true → wfV c = true →
      ((vcmp a b = .lt → vcmp b c = .lt → vcmp a c = .lt) ∧
        vcmp b a = (vcmp a b).swap ∧
        (vcmp a b ≠ .gt → vcmp b a ≠ .gt → vcmp a b = .eq) ∧
        (a.info.prerelease = none → b.info.prerelease ≠ none →
          a.info.major = b.info.major → a.info.minor = b.info.minor →
          a.info.patch = b.info.patch → vcmp a b = .gt))) ∧
      Version.make "0.0.0+1" = .ok v000build1 ∧
      Version.make "0.0.0+999" = .ok v000build999 ∧
      vcmp v000build1 v000build999 = .eq ∧
      v000build1.versionStr ≠ v000build999.versionStr := by
  refine ⟨?_, by decide, by decide, by decide, by decide⟩
  intro a b c ha hb hc
  refine ⟨fun h1 h2 => cmpInfo_lt_trans_wf a.info b.info c.info ha hb hc h1 h2,
    cmpInfo_swap_wf a.info b.info ha hb, ?_, ?_⟩
  · intro hab hba
    have hswap : vcmp b a = (vcmp a b).swap := cmpInfo_swap_wf a.info b.info ha hb
    rw [hswap] at hba
    rcases h : vcmp a b with _ | _ | _
    · exfalso
      apply hba
      rw [h]
      rfl
    · rfl
    · exact absurd h hab
  · intro hpn hps he1 he2 he3
    have hgt : cmpPre a.info.prerelease b.info.prerelease = .gt := by
      rcases hbp : b.info.prerelease with _ | p
      · exact absurd hbp hps
      · rw [hpn]
        have hwfb : WfPre (some p) = true := by
          have : wfInfo b.info = true := hb
          rw [wfInfo, hbp] at this
          exact this
        exact cmpPre_none_some p hwfb
    show cmpInfo a.info b.info = .gt
    unfold cmpInfo
    rw [(cmpNat_eq_iff _ _).2 he1, (cmpNat_eq_iff _ _).2 he2, (cmpNat_eq_iff _ _).2 he3]
    exact hgt

theorem claim_C8_version_order_witness :
    wfV v001 = true ∧ wfV v002 = true ∧ wfV v003 = true ∧
      ((vcmp v001 v002 = .lt → vcmp v002 v003 = .lt → vcmp v001 v003 = .lt) ∧
        vcmp v002 v001 = (vcmp v001 v002).swap ∧
        (vcmp v001 v002 ≠ .gt → vcmp v002 v001 ≠ .gt → vcmp v001 v002 = .eq) ∧
        (v001.info.prerelease = none → v002.info.prerelease ≠ none →
          v001.info.major = v002.info.major → v001.info.minor = v002.info.minor →
          v001.info.patch = v002.info.patch → vcmp v001 v002 = .gt)) :=
  ⟨by decide, by decide, by decide,
    claim_C8_version_order.1 v001 v002 v003 (by decide) (by decide) (by decide)⟩

